import Mathlib

/-!
Verification development for the star-tracker data-analysis repository.

The Python sources are shallowly embedded as Lean definitions:
* `src/client.py` — `json2python`, `Client.send_request` (session injection
  and response handling), `Client.job_status` sub-fetch sequencing, and the
  submission-polling loop of `run_client`;
* `src/astrometry_solver.py` — `AstrometrySolver.wait_for_submission`;
* `src/constellation_data.py` — `GREEK_MAP`, `normalize_name`,
  `find_star_in_annotations`;
* `src/annotate_fits.py` — the edge distance computations of
  `annotate_image`.

Python values reachable in these code paths are modelled by `PyObj`;
Python exceptions by `PyError`; strings by `String` or `List Char`.
-/

/-- Model of the Python values these code paths manipulate: `None`, booleans,
integers, strings, lists and string-keyed dicts (JSON-decoded objects). -/
inductive PyObj : Type where
  | none : PyObj
  | bool (b : Bool) : PyObj
  | int (n : Int) : PyObj
  | str (s : String) : PyObj
  | list (xs : List PyObj) : PyObj
  | dict (kvs : List (String × PyObj)) : PyObj

/-- Model of the Python exceptions these code paths can raise.
`requestError` and `malformedResponse` embed the exception classes
`RequestError` and `MalformedResponse` of `src/client.py`; the rest are
Python builtins. -/
inductive PyError : Type where
  | requestError (msg : String) : PyError
  | malformedResponse : PyError
  | attributeError : PyError
  | typeError : PyError
  | indexError : PyError
  | keyError : PyError
deriving DecidableEq

/-- Python truthiness for `PyObj` (`if x:`). -/
def pyTruthy : PyObj → Bool
  | PyObj.none => false
  | PyObj.bool b => b
  | PyObj.int n => n != 0
  | PyObj.str s => !s.isEmpty
  | PyObj.list xs => !xs.isEmpty
  | PyObj.dict kvs => !kvs.isEmpty

/-- `x is None` for `PyObj`. -/
def isPyNone : PyObj → Bool
  | PyObj.none => true
  | _ => false

/-- Python `x == "lit"` against a string literal. -/
def pyEqStr (v : PyObj) (s : String) : Bool :=
  match v with
  | PyObj.str t => t == s
  | _ => false

/-- Association lookup in a dict's key/value list (keys are unique in any
dict produced by the modelled code; first match wins). -/
def dictLookup : List (String × PyObj) → String → Option PyObj
  | [], _ => Option.none
  | (k', v') :: rest, k => if k' = k then Option.some v' else dictLookup rest k

/-- Python `d.get(key, dflt)`. -/
def dictGet (kvs : List (String × PyObj)) (key : String) (dflt : PyObj) : PyObj :=
  match dictLookup kvs key with
  | Option.some v => v
  | Option.none => dflt

/-- Python `d.update({key: v})` / `d[key] = v`: replaces the value of an
existing key in place (keeping its position), otherwise appends the new
key at the end (Python dicts preserve insertion order). -/
def dictUpdate : List (String × PyObj) → String → PyObj → List (String × PyObj)
  | [], k, v => [(k, v)]
  | (k', v') :: rest, k, v =>
    if k' = k then (k, v) :: rest else (k', v') :: dictUpdate rest k v

/-- Python `x[0]`: head of a list, first character of a string; raises for
the other shapes (`KeyError` for a dict without the key `0`, `TypeError`
for non-subscriptable values). -/
def pyIndexZero : PyObj → Except PyError PyObj
  | PyObj.list [] => Except.error PyError.indexError
  | PyObj.list (x :: _) => Except.ok x
  | PyObj.str s =>
    match s.toList with
    | [] => Except.error PyError.indexError
    | c :: _ => Except.ok (PyObj.str (String.mk [c]))
  | PyObj.dict _ => Except.error PyError.keyError
  | _ => Except.error PyError.typeError

/-- Embeds `json2python` (src/client.py lines 34-39): `json.loads` wrapped in
a bare `try/except` that turns any parse failure into Python `None`.
The JSON parser itself is external library code, abstracted as `parse`;
`parse body = Option.none` models an unparseable body. -/
def json2python (parse : String → Option PyObj) (data : String) : PyObj :=
  match parse data with
  | Option.some v => v
  | Option.none => PyObj.none

/-- The outcome of the HTTP exchange performed by `urlopen` inside
`Client.send_request`: success status with a body, or an `HTTPError`
carrying the error-response body (`e.read()`). -/
inductive HttpResponse : Type where
  | ok (body : String) : HttpResponse
  | err (body : String) : HttpResponse

/-- What a `Client.send_request` call produces: the content written to
`err.html` (if any), and either a returned `PyObj` or a raised exception. -/
structure SendResult : Type where
  errHtml : Option String
  outcome : Except PyError PyObj

/-- Embeds the response-handling half of `Client.send_request`
(src/client.py lines 104-124).  On success status the body is parsed with
`json2python`, `result.get('status')` is consulted (raising
`AttributeError` when the parse produced `None` or a non-dict), a
`status == 'error'` response raises `RequestError`, otherwise the parsed
result is returned.  On `HTTPError` the handler writes the raw body to
`err.html` and falls off the end of the function, returning `None`. -/
def send_request_receive (parse : String → Option PyObj) (resp : HttpResponse) :
    SendResult :=
  match resp with
  | HttpResponse.err body =>
    { errHtml := Option.some body, outcome := Except.ok PyObj.none }
  | HttpResponse.ok body =>
    match json2python parse body with
    | PyObj.dict kvs =>
      if pyEqStr (dictGet kvs "status" PyObj.none) "error" then
        match dictGet kvs "errormessage" (PyObj.str "(none)") with
        | PyObj.str m =>
          { errHtml := Option.none
            outcome := Except.error (PyError.requestError ("server error message: " ++ m)) }
        | _ => { errHtml := Option.none, outcome := Except.error PyError.typeError }
      else { errHtml := Option.none, outcome := Except.ok (PyObj.dict kvs) }
    | _ => { errHtml := Option.none, outcome := Except.error PyError.attributeError }

/-- Embeds the session-injection step of `Client.send_request`
(src/client.py lines 63-64): `if self.session is not None:
args.update({'session': self.session})`.  The returned list is the state
of the caller-supplied `args` dict after the call — `dict.update` mutates
it in place, so this is also exactly what gets serialized. -/
def send_request_args (session : Option String) (args : List (String × PyObj)) :
    List (String × PyObj) :=
  match session with
  | Option.none => args
  | Option.some s => dictUpdate args "session" (PyObj.str s)

/-- What one iteration of the `wait_for_submission` polling loop does with a
parsed submission-status response. -/
inductive SubPollStep : Type where
  | keepPolling : SubPollStep
  | ret (v : PyObj) : SubPollStep
  | raised : SubPollStep

/-- Embeds one iteration of `AstrometrySolver.wait_for_submission`
(src/astrometry_solver.py lines 49-66), applied to the parsed response of
one `submissions/{id}` poll: if `result.get('processing_finished')` is
truthy, `job_ids = result.get('jobs', [])` is fetched and
`if job_ids and job_ids[0] is not None: return job_ids` / `else: return []`
decides the outcome (note that only the FIRST entry is inspected);
otherwise the loop sleeps and polls again. -/
def wait_for_submission_step (result : PyObj) : SubPollStep :=
  match result with
  | PyObj.dict kvs =>
    if pyTruthy (dictGet kvs "processing_finished" PyObj.none) then
      let jobIds := dictGet kvs "jobs" (PyObj.list [])
      if pyTruthy jobIds then
        match pyIndexZero jobIds with
        | Except.error _ => SubPollStep.raised
        | Except.ok v =>
          if isPyNone v then SubPollStep.ret (PyObj.list [])
          else SubPollStep.ret jobIds
      else SubPollStep.ret (PyObj.list [])
    else SubPollStep.keepPolling
  | _ => SubPollStep.raised

/-- Runs `wait_for_submission` over a finite stream of successive poll
responses.  `Option.none` means the stream was exhausted with the loop
still polling (the source loop has no other way to stop). -/
def wait_for_submission_run : List PyObj → Option SubPollStep
  | [] => Option.none
  | r :: rest =>
    match wait_for_submission_step r with
    | SubPollStep.keepPolling => wait_for_submission_run rest
    | out => Option.some out

/-- What one iteration of `run_client`'s submission polling loop does with a
parsed `sub_status` response. -/
inductive RunClientSubStep : Type where
  | keepPolling : RunClientSubStep
  | select (j : PyObj) : RunClientSubStep
  | raised : RunClientSubStep

/-- Embeds one iteration of the submission polling loop of `run_client`
(src/client.py lines 347-359): `jobs = stat.get('jobs', [])`; when
`len(jobs)` is nonzero, `for j in jobs` leaves in `j` the first non-`None`
entry (or the last entry when all are `None`), and a non-`None` `j` is
selected as the job id; in every other case the loop sleeps and polls
again.  No field other than `jobs` is consulted — in particular not
`processing_finished`.  Iteration over string- and dict-valued `jobs`
follows Python (characters / keys); `len` of other non-list shapes
raises `TypeError`. -/
def run_client_sub_step (stat : PyObj) : RunClientSubStep :=
  match stat with
  | PyObj.dict kvs =>
    match dictGet kvs "jobs" (PyObj.list []) with
    | PyObj.list [] => RunClientSubStep.keepPolling
    | PyObj.list (x :: xs) =>
      let j := ((x :: xs).find? (fun v => !(isPyNone v))).getD
        ((x :: xs).getLastD PyObj.none)
      if isPyNone j then RunClientSubStep.keepPolling
      else RunClientSubStep.select j
    | PyObj.str s =>
      match s.toList with
      | [] => RunClientSubStep.keepPolling
      | c :: _ => RunClientSubStep.select (PyObj.str (String.mk [c]))
    | PyObj.dict [] => RunClientSubStep.keepPolling
    | PyObj.dict (kv :: _) => RunClientSubStep.select (PyObj.str kv.1)
    | _ => RunClientSubStep.raised
  | _ => RunClientSubStep.raised

/-- Runs `run_client`'s submission polling loop over a finite stream of
successive poll responses; `Option.none` means the stream was exhausted
with the loop still polling. -/
def run_client_sub_run : List PyObj → Option RunClientSubStep
  | [] => Option.none
  | r :: rest =>
    match run_client_sub_step r with
    | RunClientSubStep.keepPolling => run_client_sub_run rest
    | out => Option.some out

/-- `result.get('processing_finished')` of a poll response is truthy (a
non-dict response cannot report it at all). -/
def processing_finished_truthy (r : PyObj) : Bool :=
  match r with
  | PyObj.dict kvs => pyTruthy (dictGet kvs "processing_finished" PyObj.none)
  | _ => false

/-- The response's `jobs` value is a list all of whose entries are `None`. -/
def jobsAllNull (r : PyObj) : Bool :=
  match r with
  | PyObj.dict kvs =>
    match dictGet kvs "jobs" (PyObj.list []) with
    | PyObj.list xs => xs.all isPyNone
    | _ => false
  | _ => false

/-- Sequentially executes a list of sub-fetch outcomes (each the `outcome`
of a `send_request` call), as statements in a Python function body do:
each raising outcome propagates immediately, abandoning the rest.
Returns how many sub-fetches were attempted and the final outcome. -/
def run_sub_fetches : List (Except PyError PyObj) → Nat × Except PyError Unit
  | [] => (0, Except.ok ())
  | o :: os =>
    match o with
    | Except.error e => (1, Except.error e)
    | Except.ok _ =>
      let p := run_sub_fetches os
      (p.1 + 1, p.2)

/-- The six result sub-fetches issued by `Client.job_status`
(src/client.py lines 220-239) for a success job, in source order. -/
def job_status_sub_services : List String :=
  ["calibration", "tags", "machine_tags", "objects_in_field", "annotations", "info"]

/-- Embeds the success branch of `Client.job_status`: the six sub-fetch
`send_request` calls run sequentially; `fetch` gives each sub-fetch's
`SendResult`.  The source keeps no per-field results (each call
overwrites the same local, which is only printed) and returns just the
job status, so the observable behavior is how many sub-fetches ran and
whether an exception escaped. -/
def job_status_success_fetches (fetch : String → SendResult) :
    Nat × Except PyError Unit :=
  run_sub_fetches (job_status_sub_services.map (fun svc => (fetch svc).outcome))

/-- Python `name.replace(g, e)` for a single-character pattern `g`: every
occurrence of the character is replaced by `e`.  Strings are represented
as `List Char` throughout the constellation code. -/
def pyReplaceChar (g : Char) (e : List Char) : List Char → List Char
  | [] => []
  | c :: cs => (if c = g then e else [c]) ++ pyReplaceChar g e cs

/-- Folds a replacement table over a string, one `replace` per entry in
table order — the `for greek, english in GREEK_MAP.items()` loop of
`normalize_name`. -/
def applyCharMap : List (Char × List Char) → List Char → List Char
  | [], s => s
  | p :: m, s => applyCharMap m (pyReplaceChar p.1 p.2 s)

/-- Embeds `GREEK_MAP` (src/constellation_data.py lines 110-135): the 24
lowercase Greek letters α..ω mapped to spelled-out Latin names.  Every key
is a single character; the final-sigma form 'ς' (U+03C2) has no entry. -/
def GREEK_MAP : List (Char × List Char) :=
  [('α', "Alpha".toList),
   ('β', "Beta".toList),
   ('γ', "Gamma".toList),
   ('δ', "Delta".toList),
   ('ε', "Epsilon".toList),
   ('ζ', "Zeta".toList),
   ('η', "Eta".toList),
   ('θ', "Theta".toList),
   ('ι', "Iota".toList),
   ('κ', "Kappa".toList),
   ('λ', "Lambda".toList),
   ('μ', "Mu".toList),
   ('ν', "Nu".toList),
   ('ξ', "Xi".toList),
   ('ο', "Omicron".toList),
   ('π', "Pi".toList),
   ('ρ', "Rho".toList),
   ('σ', "Sigma".toList),
   ('τ', "Tau".toList),
   ('υ', "Upsilon".toList),
   ('φ', "Phi".toList),
   ('χ', "Chi".toList),
   ('ψ', "Psi".toList),
   ('ω', "Omega".toList)]

/-- Accumulator worker for Python `str.split()` (split on whitespace runs,
dropping empty pieces); `acc` holds the current word reversed. -/
def pySplitAux : List Char → List Char → List (List Char)
  | [], acc => if acc = [] then [] else [acc.reverse]
  | c :: cs, acc =>
    if c.isWhitespace then
      if acc = [] then pySplitAux cs []
      else acc.reverse :: pySplitAux cs []
    else pySplitAux cs (c :: acc)

/-- Python `name.split()`. -/
def pySplit (s : List Char) : List (List Char) :=
  pySplitAux s []

/-- Python `' '.join(ws)`. -/
def pyJoinSpace : List (List Char) → List Char
  | [] => []
  | [w] => w
  | w :: w' :: ws => w ++ ' ' :: pyJoinSpace (w' :: ws)

/-- Embeds `normalize_name` (src/constellation_data.py lines 137-149):
replace each `GREEK_MAP` key by its Latin name, then collapse whitespace
via `' '.join(name.split())`. -/
def normalize_name (name : List Char) : List Char :=
  pyJoinSpace (pySplit (applyCharMap GREEK_MAP name))

/-- Python substring containment `sub in s` (case-sensitive, unanchored). -/
def pyInStr (sub : List Char) : List Char → Bool
  | [] => sub.isEmpty
  | c :: t => sub.isPrefixOf (c :: t) || pyInStr sub t

/-- The slice of an Astrometry.net annotation record that
`find_star_in_annotations` consults: its list of alias names
(`star.get('names', [])`). -/
structure AnnStar : Type where
  names : List (List Char)
deriving DecidableEq

/-- Embeds `find_star_in_annotations` (src/constellation_data.py lines
151-177): scan the records in order, for each scan its aliases in order,
normalize each alias, and return the first record one of whose normalized
aliases contains the pattern as a substring (`star_name_pattern in
norm_name`); `None` when no record matches. -/
def find_star_in_annotations (star_name_pattern : List Char)
    (annotations : List AnnStar) : Option AnnStar :=
  annotations.find? (fun star =>
    star.names.any (fun name => pyInStr star_name_pattern (normalize_name name)))

/-- Embeds `np.radians` as used by `annotate_image`. -/
noncomputable def np_radians (x : ℝ) : ℝ := x * Real.pi / 180

/-- Embeds the law-of-cosines distance of `annotate_image`
(src/annotate_fits.py lines 140-145):
`np.sqrt(d1**2 + d2**2 - 2*d1*d2*np.cos(np.radians(dist_deg)))`. -/
noncomputable def law_of_cosines_ly (d1 d2 distDeg : ℝ) : ℝ :=
  Real.sqrt (d1 ^ 2 + d2 ^ 2 - 2 * d1 * d2 * Real.cos (np_radians distDeg))

/-- Embeds the angular separation of a resolved edge
(src/annotate_fits.py lines 128-129): pixel distance between the two
endpoints times the pixel scale in degrees per pixel. -/
noncomputable def edge_dist_deg (x1 y1 x2 y2 degPerPixel : ℝ) : ℝ :=
  Real.sqrt ((x2 - x1) ^ 2 + (y2 - y1) ^ 2) * degPerPixel

/-- The physical separation emitted for a resolved edge whose two endpoint
stars both carry catalog distances: the law of cosines applied to the
edge's angular separation. -/
noncomputable def edge_dist_ly (x1 y1 x2 y2 degPerPixel d1 d2 : ℝ) : ℝ :=
  law_of_cosines_ly d1 d2 (edge_dist_deg x1 y1 x2 y2 degPerPixel)

/-- The character is a lowercase Greek letter (α..ω, U+03B1..U+03C9; this
range includes the final sigma 'ς', U+03C2). -/
def isGreekLower (c : Char) : Bool :=
  decide (0x3B1 ≤ c.toNat) && decide (c.toNat ≤ 0x3C9)

/-- The character is a codepoint of the Unicode Greek and Coptic block
(U+0370..U+03FF). -/
def isGreekCodepoint (c : Char) : Bool :=
  decide (0x370 ≤ c.toNat) && decide (c.toNat ≤ 0x3FF)

/-! ### Helper lemmas -/

theorem dictLookup_dictUpdate_self (kvs : List (String × PyObj)) (k : String)
    (v : PyObj) : dictLookup (dictUpdate kvs k v) k = Option.some v := by
  induction kvs with
  | nil => simp [dictUpdate, dictLookup]
  | cons p rest ih =>
    by_cases h : p.1 = k
    · simp [dictUpdate, dictLookup, h]
    · simp [dictUpdate, dictLookup, h, ih]

theorem dictLookup_dictUpdate_other (kvs : List (String × PyObj)) (k k' : String)
    (v : PyObj) (hne : k' ≠ k) :
    dictLookup (dictUpdate kvs k v) k' = dictLookup kvs k' := by
  have hne' : k ≠ k' := hne.symm
  induction kvs with
  | nil => simp [dictUpdate, dictLookup, hne']
  | cons p rest ih =>
    obtain ⟨pk, pv⟩ := p
    by_cases h : pk = k
    · subst h
      simp [dictUpdate, dictLookup, hne']
    · simp [dictUpdate, dictLookup, h, ih]

theorem dictUpdate_append_of_lookup_none (kvs : List (String × PyObj))
    (k : String) (v : PyObj) (h : dictLookup kvs k = Option.none) :
    dictUpdate kvs k v = kvs ++ [(k, v)] := by
  induction kvs with
  | nil => simp [dictUpdate]
  | cons p rest ih =>
    by_cases hk : p.1 = k
    · simp [dictLookup, hk] at h
    · simp only [dictLookup, hk, if_neg] at h
      simp [dictUpdate, hk, ih h]

theorem run_sub_fetches_all_ok (os : List (Except PyError PyObj))
    (h : ∀ o ∈ os, ∃ v, o = Except.ok v) :
    run_sub_fetches os = (os.length, Except.ok ()) := by
  induction os with
  | nil => rfl
  | cons o os ih =>
    obtain ⟨v, hv⟩ := h o (List.mem_cons_self o os)
    subst hv
    simp [run_sub_fetches, ih (fun o' ho' => h o' (List.mem_cons_of_mem _ ho'))]

theorem run_sub_fetches_abort (pre : List (Except PyError PyObj)) (e : PyError)
    (post : List (Except PyError PyObj))
    (h : ∀ o ∈ pre, ∃ v, o = Except.ok v) :
    run_sub_fetches (pre ++ Except.error e :: post) = (pre.length + 1, Except.error e) := by
  induction pre with
  | nil => rfl
  | cons o pre ih =>
    obtain ⟨v, hv⟩ := h o (List.mem_cons_self o pre)
    subst hv
    simp [run_sub_fetches, ih (fun o' ho' => h o' (List.mem_cons_of_mem _ ho'))]

theorem wait_for_submission_step_ret_pf (r : PyObj) (v : PyObj)
    (h : wait_for_submission_step r = SubPollStep.ret v) :
    processing_finished_truthy r = true := by
  cases r with
  | dict kvs =>
    by_cases hpf : pyTruthy (dictGet kvs "processing_finished" PyObj.none) = true
    · simpa [processing_finished_truthy] using hpf
    · exfalso
      have h' : wait_for_submission_step (PyObj.dict kvs) = SubPollStep.keepPolling := by
        simp [wait_for_submission_step, hpf]
      rw [h'] at h
      exact SubPollStep.noConfusion h
  | none => simp [wait_for_submission_step] at h
  | bool b => simp [wait_for_submission_step] at h
  | int n => simp [wait_for_submission_step] at h
  | str s => simp [wait_for_submission_step] at h
  | list xs => simp [wait_for_submission_step] at h

theorem mem_getLastD_cons (x : PyObj) (xs : List PyObj) (d : PyObj) :
    (x :: xs).getLastD d ∈ x :: xs := by
  induction xs generalizing x d with
  | nil => simp [List.getLastD_cons, List.getLastD]
  | cons y ys ih =>
    rw [List.getLastD_cons]
    exact List.mem_cons_of_mem x (ih y x)

theorem run_client_sub_step_allNull (r : PyObj) (h : jobsAllNull r = true) :
    run_client_sub_step r = RunClientSubStep.keepPolling := by
  cases r with
  | dict kvs =>
    have h' : (match dictGet kvs "jobs" (PyObj.list []) with
        | PyObj.list xs => xs.all isPyNone
        | _ => false) = true := h
    cases hj : dictGet kvs "jobs" (PyObj.list []) with
    | list xs =>
      rw [hj] at h'
      cases xs with
      | nil => simp [run_client_sub_step, hj]
      | cons x xs =>
        have hall : ∀ y ∈ x :: xs, isPyNone y = true := by
          simpa [List.all_eq_true] using h'
        have hfind : (x :: xs).find? (fun v => !(isPyNone v)) = Option.none := by
          rw [List.find?_eq_none]
          intro y hy
          simp [hall y hy]
        have hlast : isPyNone ((x :: xs).getLast?.getD PyObj.none) = true := by
          rw [← List.getLastD_eq_getLast?]
          exact hall _ (mem_getLastD_cons x xs PyObj.none)
        simp [run_client_sub_step, hj, hfind, hlast]
    | none => rw [hj] at h'; simp at h'
    | bool b => rw [hj] at h'; simp at h'
    | int n => rw [hj] at h'; simp at h'
    | str s => rw [hj] at h'; simp at h'
    | dict kvs' => rw [hj] at h'; simp at h'
  | none => simp [jobsAllNull] at h
  | bool b => simp [jobsAllNull] at h
  | int n => simp [jobsAllNull] at h
  | str s => simp [jobsAllNull] at h
  | list xs => simp [jobsAllNull] at h

theorem run_client_sub_run_keepPolling (resps : List PyObj)
    (h : ∀ r ∈ resps, run_client_sub_step r = RunClientSubStep.keepPolling) :
    run_client_sub_run resps = Option.none := by
  induction resps with
  | nil => rfl
  | cons r rest ih =>
    simp only [run_client_sub_run, h r (List.mem_cons_self r rest)]
    exact ih (fun r' hr' => h r' (List.mem_cons_of_mem _ hr'))

/-! ### Claim C1 -/

/-- C1, as stated, is false: on a non-success HTTP status,
`Client.send_request` does capture the raw response body (writing it to
`err.html`), but the `except HTTPError` handler does not re-raise — the
function falls off its end and returns `None` to the caller instead of
failing.  Concretely, for an HTTP error with body `"BODY"` the call
returns normally. -/
theorem c1_counterexample :
    (send_request_receive (fun _ => Option.none) (HttpResponse.err "BODY")).errHtml
      = Option.some "BODY" ∧
    (send_request_receive (fun _ => Option.none) (HttpResponse.err "BODY")).outcome
      = Except.ok PyObj.none ∧
    ¬ ∃ e, (send_request_receive (fun _ => Option.none) (HttpResponse.err "BODY")).outcome
      = Except.error e := by
  refine ⟨rfl, rfl, ?_⟩
  rintro ⟨e, he⟩
  exact Except.noConfusion he

/-- C1 amended: on a non-success HTTP status, `Client.send_request`
captures the raw response body as the diagnostic artifact `err.html` and
then returns `None` — the `HTTPError` is swallowed, never surfaced to the
caller, whatever the response body or the JSON parser. -/
theorem c1_amended (parse : String → Option PyObj) (body : String) :
    (send_request_receive parse (HttpResponse.err body)).errHtml = Option.some body ∧
    (send_request_receive parse (HttpResponse.err body)).outcome = Except.ok PyObj.none ∧
    ∀ e, (send_request_receive parse (HttpResponse.err body)).outcome ≠ Except.error e :=
  ⟨rfl, rfl, fun _ he => Except.noConfusion he⟩

/-! ### Claim C2 -/

/-- C2, as stated, is false: when the HTTP exchange succeeds but the body
is not parseable as JSON, `json2python` swallows the parse failure and
returns `None`, and `result.get('status')` then raises the untyped
builtin `AttributeError` — not the `MalformedResponse` error the spec
names (that class is defined in `src/client.py` but never raised). -/
theorem c2_counterexample :
    (send_request_receive (fun _ => Option.none) (HttpResponse.ok "NOTJSON")).outcome
      = Except.error PyError.attributeError ∧
    PyError.attributeError ≠ PyError.malformedResponse :=
  ⟨rfl, by decide⟩

/-- C2 amended: when the HTTP exchange succeeds but the response body is
not parseable as JSON, `Client.send_request` fails with the builtin
`AttributeError` (from calling `.get` on the `None` that `json2python`
returns), not with `MalformedResponseError`. -/
theorem c2_amended (parse : String → Option PyObj) (body : String)
    (h : parse body = Option.none) :
    (send_request_receive parse (HttpResponse.ok body)).outcome
      = Except.error PyError.attributeError := by
  simp [send_request_receive, json2python, h]

/-- Witness for C2 amended at a concrete unparseable body. -/
theorem c2_witness :
    (send_request_receive (fun _ => Option.none) (HttpResponse.ok "X")).outcome
      = Except.error PyError.attributeError :=
  c2_amended (fun _ => Option.none) "X" rfl

/-! ### Claim C3 -/

/-- C3, as stated, is false in both halves.  First conjunct:
`wait_for_submission` receives a finished response whose job list
`[None, 42]` contains the non-null entry `42`, yet it returns the empty
outcome (it only inspects `job_ids[0]`).  Second conjunct: `run_client`'s
poller, fed finished responses whose job list `[None]` is all-null, never
produces a terminal empty outcome — it keeps polling (here: exhausts a
2-response stream still polling). -/
theorem c3_counterexample :
    wait_for_submission_step (PyObj.dict [("processing_finished", PyObj.bool true),
      ("jobs", PyObj.list [PyObj.none, PyObj.int 42])]) = SubPollStep.ret (PyObj.list []) ∧
    run_client_sub_run (List.replicate 2 (PyObj.dict [("processing_finished", PyObj.bool true),
      ("jobs", PyObj.list [PyObj.none])])) = Option.none :=
  ⟨rfl, rfl⟩

/-- C3 amended: the two pollers behave differently, and neither matches
the claim.  `AstrometrySolver.wait_for_submission` inspects only the
FIRST entry of a finished submission's job list: it returns the whole
list when that first entry is non-null, and returns the empty outcome
when the list is empty or its first entry is null — even when a later
entry is non-null.  `run_client`'s poller does select the first non-null
entry when one exists, but on an empty or all-null list it never reaches
a terminal empty outcome: it keeps polling. -/
theorem c3_amended :
    (∀ (kvs : List (String × PyObj)) (j : PyObj) (js : List PyObj),
      pyTruthy (dictGet kvs "processing_finished" PyObj.none) = true →
      dictGet kvs "jobs" (PyObj.list []) = PyObj.list (j :: js) →
      isPyNone j = false →
      wait_for_submission_step (PyObj.dict kvs) = SubPollStep.ret (PyObj.list (j :: js))) ∧
    (∀ (kvs : List (String × PyObj)) (j : PyObj) (js : List PyObj),
      pyTruthy (dictGet kvs "processing_finished" PyObj.none) = true →
      dictGet kvs "jobs" (PyObj.list []) = PyObj.list (j :: js) →
      isPyNone j = true →
      wait_for_submission_step (PyObj.dict kvs) = SubPollStep.ret (PyObj.list [])) ∧
    (∀ kvs : List (String × PyObj),
      pyTruthy (dictGet kvs "processing_finished" PyObj.none) = true →
      dictGet kvs "jobs" (PyObj.list []) = PyObj.list [] →
      wait_for_submission_step (PyObj.dict kvs) = SubPollStep.ret (PyObj.list [])) ∧
    (∀ (kvs : List (String × PyObj)) (xs : List PyObj) (j : PyObj),
      dictGet kvs "jobs" (PyObj.list []) = PyObj.list xs →
      xs.find? (fun v => !(isPyNone v)) = Option.some j →
      run_client_sub_step (PyObj.dict kvs) = RunClientSubStep.select j) ∧
    (∀ resps : List PyObj, (∀ r ∈ resps, jobsAllNull r = true) →
      run_client_sub_run resps = Option.none) := by
  refine ⟨?_, ?_, ?_, ?_, ?_⟩
  · intro kvs j js hpf hj hnull
    have ht : pyTruthy (PyObj.list (j :: js)) = true := by simp [pyTruthy]
    simp [wait_for_submission_step, hpf, hj, ht, pyIndexZero, hnull]
  · intro kvs j js hpf hj hnull
    have ht : pyTruthy (PyObj.list (j :: js)) = true := by simp [pyTruthy]
    simp [wait_for_submission_step, hpf, hj, ht, pyIndexZero, hnull]
  · intro kvs hpf hj
    have hf : pyTruthy (PyObj.list []) = false := rfl
    simp [wait_for_submission_step, hpf, hj, hf]
  · intro kvs xs j hj hfind
    cases xs with
    | nil => simp at hfind
    | cons x xs =>
      have hnull : isPyNone j = false := by
        have := List.find?_some hfind
        simpa using this
      simp [run_client_sub_step, hj, hfind, hnull]
  · intro resps h
    exact run_client_sub_run_keepPolling resps
      (fun r hr => run_client_sub_step_allNull r (h r hr))

/-- Witness for C3 amended: a finished response with first job id `7` is
selected, and a stream of finished all-null responses is still polling
when exhausted. -/
theorem c3_witness :
    wait_for_submission_step (PyObj.dict [("processing_finished", PyObj.bool true),
      ("jobs", PyObj.list [PyObj.int 7])]) = SubPollStep.ret (PyObj.list [PyObj.int 7]) ∧
    run_client_sub_run [PyObj.dict [("processing_finished", PyObj.bool true),
      ("jobs", PyObj.list [PyObj.none])]] = Option.none := by
  constructor
  · exact c3_amended.1 _ (PyObj.int 7) [] rfl rfl rfl
  · refine c3_amended.2.2.2.2 _ ?_
    intro r hr
    rw [List.mem_singleton] at hr
    subst hr
    rfl

/-! ### Claim C4 -/

/-- C4, as stated, is false for `run_client`'s poller: it selects a job id
from a `sub_status` response based solely on the `jobs` list, without
ever consulting `processing_finished`.  Concretely, a single response
carrying `jobs: [42]` and no `processing_finished` report (its value is
absent, hence falsy) makes the poller select job `42`. -/
theorem c4_counterexample :
    run_client_sub_run [PyObj.dict [("jobs", PyObj.list [PyObj.int 42])]]
      = Option.some (RunClientSubStep.select (PyObj.int 42)) ∧
    processing_finished_truthy (PyObj.dict [("jobs", PyObj.list [PyObj.int 42])]) = false :=
  ⟨rfl, rfl⟩

/-- C4 amended: the claimed temporal property does hold for
`AstrometrySolver.wait_for_submission` — whenever its polling loop
returns a job list, some polled response (in fact the deciding one)
reported a truthy `processing_finished` — but `run_client`'s poller
ignores `processing_finished` entirely. -/
theorem c4_amended (resps : List PyObj) (v : PyObj)
    (h : wait_for_submission_run resps = Option.some (SubPollStep.ret v)) :
    ∃ r ∈ resps, processing_finished_truthy r = true := by
  induction resps with
  | nil => simp [wait_for_submission_run] at h
  | cons r rest ih =>
    cases hs : wait_for_submission_step r with
    | keepPolling =>
      have h' : wait_for_submission_run rest = Option.some (SubPollStep.ret v) := by
        simpa [wait_for_submission_run, hs] using h
      obtain ⟨r', hr', hpf⟩ := ih h'
      exact ⟨r', List.mem_cons_of_mem r hr', hpf⟩
    | ret v' =>
      exact ⟨r, List.mem_cons_self r rest, wait_for_submission_step_ret_pf r v' hs⟩
    | raised =>
      exfalso
      simp [wait_for_submission_run, hs] at h

/-- Witness for C4 amended at a concrete one-response stream. -/
theorem c4_witness :
    ∃ r ∈ [PyObj.dict [("processing_finished", PyObj.bool true),
      ("jobs", PyObj.list [PyObj.int 7])]], processing_finished_truthy r = true :=
  c4_amended _ (PyObj.list [PyObj.int 7]) rfl

/-! ### Claim C5 -/

/-- C5, as stated, is false: when a session token is set,
`Client.send_request` executes `args.update({'session': self.session})`,
mutating the caller-supplied `args` dict in place.  Concretely, a caller
dict `{'apikey': 'k'}` gains a `session` key and is no longer equal to
what the caller passed. -/
theorem c5_counterexample :
    send_request_args (Option.some "tok") [("apikey", PyObj.str "k")]
      = [("apikey", PyObj.str "k"), ("session", PyObj.str "tok")] ∧
    send_request_args (Option.some "tok") [("apikey", PyObj.str "k")]
      ≠ [("apikey", PyObj.str "k")] := by
  refine ⟨rfl, fun h => ?_⟩
  have h' : ([("apikey", PyObj.str "k"), ("session", PyObj.str "tok")] :
      List (String × PyObj)) = [("apikey", PyObj.str "k")] := h
  simp at h'

/-- C5 amended: with no session token (e.g. the login call) the
caller-supplied `args` dict is left unchanged; with a session token set,
the encoding step mutates the caller's dict in place via `dict.update`:
afterwards it maps `'session'` to the token, every other key keeps its
value, and when the caller's dict had no `'session'` key the entry is
appended at the end (so the caller's dict has genuinely changed). -/
theorem c5_amended :
    (∀ args : List (String × PyObj), send_request_args Option.none args = args) ∧
    (∀ (args : List (String × PyObj)) (s : String),
      dictLookup (send_request_args (Option.some s) args) "session"
        = Option.some (PyObj.str s)) ∧
    (∀ (args : List (String × PyObj)) (s k : String), k ≠ "session" →
      dictLookup (send_request_args (Option.some s) args) k = dictLookup args k) ∧
    (∀ (args : List (String × PyObj)) (s : String),
      dictLookup args "session" = Option.none →
      send_request_args (Option.some s) args = args ++ [("session", PyObj.str s)]) := by
  refine ⟨fun args => rfl, ?_, ?_, ?_⟩
  · intro args s
    exact dictLookup_dictUpdate_self args "session" (PyObj.str s)
  · intro args s k hk
    exact dictLookup_dictUpdate_other args "session" k (PyObj.str s) hk
  · intro args s h
    exact dictUpdate_append_of_lookup_none args "session" (PyObj.str s) h

/-- Witness for C5 amended at a concrete caller dict. -/
theorem c5_witness :
    dictLookup (send_request_args (Option.some "tok") [("apikey", PyObj.str "k")]) "apikey"
      = dictLookup [("apikey", PyObj.str "k")] "apikey" ∧
    send_request_args (Option.some "tok") [("apikey", PyObj.str "k")]
      = [("apikey", PyObj.str "k")] ++ [("session", PyObj.str "tok")] :=
  ⟨c5_amended.2.2.1 [("apikey", PyObj.str "k")] "tok" "apikey" (by decide),
   c5_amended.2.2.2 [("apikey", PyObj.str "k")] "tok" rfl⟩

/-! ### Claim C8 -/

/-- C8, as stated, is false: the six sub-fetches of `Client.job_status`
run sequentially with no per-fetch recovery, so a sub-fetch that raises
aborts its siblings.  Concretely, when the first sub-fetch
(`calibration`) returns a `status: 'error'` response, `send_request`
raises `RequestError` and only 1 of the 6 sub-fetches is attempted.
(No per-field bundle exists either: results are only printed.) -/
theorem c8_counterexample :
    job_status_success_fetches (fun svc =>
      send_request_receive
        (fun b => if b = "EB" then Option.some (PyObj.dict [("status", PyObj.str "error")])
          else Option.some (PyObj.dict [("status", PyObj.str "success")]))
        (HttpResponse.ok (if svc = "calibration" then "EB" else "OK")))
      = (1, Except.error (PyError.requestError "server error message: (none)")) ∧
    (1 : Nat) ≠ job_status_sub_services.length :=
  ⟨rfl, by decide⟩

/-- C8 amended: the sub-fetches run sequentially; when no sub-fetch
raises, all of them are attempted, but the first raising sub-fetch aborts
the remaining ones; an HTTP-level sub-fetch failure does not raise
(`send_request` swallows `HTTPError` and returns `None`), so only a
server-reported `status: 'error'` response (RequestError) or a
non-JSON body (AttributeError) can abort the sequence. -/
theorem c8_amended :
    (∀ os : List (Except PyError PyObj), (∀ o ∈ os, ∃ v, o = Except.ok v) →
      run_sub_fetches os = (os.length, Except.ok ())) ∧
    (∀ (pre : List (Except PyError PyObj)) (e : PyError)
      (post : List (Except PyError PyObj)), (∀ o ∈ pre, ∃ v, o = Except.ok v) →
      run_sub_fetches (pre ++ Except.error e :: post) = (pre.length + 1, Except.error e)) ∧
    (∀ (parse : String → Option PyObj) (body : String),
      (send_request_receive parse (HttpResponse.err body)).outcome = Except.ok PyObj.none) :=
  ⟨run_sub_fetches_all_ok, run_sub_fetches_abort, fun _ _ => rfl⟩

/-- Witness for C8 amended at concrete sub-fetch outcome lists. -/
theorem c8_witness :
    run_sub_fetches [Except.ok PyObj.none, Except.ok (PyObj.dict [])]
      = (2, Except.ok ()) ∧
    run_sub_fetches [Except.ok PyObj.none, Except.error PyError.typeError, Except.ok PyObj.none]
      = (2, Except.error PyError.typeError) := by
  constructor
  · have h := c8_amended.1 [Except.ok PyObj.none, Except.ok (PyObj.dict [])] ?_
    · simpa using h
    · intro o ho
      simp only [List.mem_cons, List.not_mem_nil, or_false] at ho
      rcases ho with rfl | rfl
      · exact ⟨_, rfl⟩
      · exact ⟨_, rfl⟩
  · have h := c8_amended.2.1 [Except.ok PyObj.none] PyError.typeError [Except.ok PyObj.none] ?_
    · simpa using h
    · intro o ho
      simp only [List.mem_cons, List.not_mem_nil, or_false] at ho
      subst ho
      exact ⟨_, rfl⟩

/-! ### Helper lemmas for name normalization -/

theorem pyReplaceChar_mem (g : Char) (e : List Char) (s : List Char) (c : Char)
    (h : c ∈ pyReplaceChar g e s) : c ∈ e ∨ (c ∈ s ∧ c ≠ g) := by
  induction s with
  | nil => simp [pyReplaceChar] at h
  | cons x xs ih =>
    simp only [pyReplaceChar, List.mem_append] at h
    rcases h with h | h
    · by_cases hx : x = g
      · rw [if_pos hx] at h
        exact Or.inl h
      · rw [if_neg hx] at h
        rw [List.mem_singleton] at h
        subst h
        exact Or.inr ⟨List.mem_cons_self c xs, hx⟩
    · rcases ih h with h' | ⟨h1, h2⟩
      · exact Or.inl h'
      · exact Or.inr ⟨List.mem_cons_of_mem _ h1, h2⟩

theorem pyReplaceChar_eq_self (g : Char) (e : List Char) (s : List Char)
    (h : g ∉ s) : pyReplaceChar g e s = s := by
  induction s with
  | nil => rfl
  | cons x xs ih =>
    have hx : ¬ x = g := fun hh => h (by simp [hh])
    simp [pyReplaceChar, hx, ih (fun hm => h (List.mem_cons_of_mem _ hm))]

theorem pyReplaceChar_not_mem (g : Char) (e : List Char) (s : List Char)
    (h : g ∉ e) : g ∉ pyReplaceChar g e s := by
  intro hg
  rcases pyReplaceChar_mem g e s g hg with h' | ⟨_, h2⟩
  · exact h h'
  · exact h2 rfl

theorem applyCharMap_mem (m : List (Char × List Char)) (s : List Char) (c : Char)
    (h : c ∈ applyCharMap m s) : c ∈ s ∨ ∃ p ∈ m, c ∈ p.2 := by
  induction m generalizing s with
  | nil => exact Or.inl h
  | cons p m ih =>
    rcases ih _ h with h' | ⟨q, hq, hc⟩
    · rcases pyReplaceChar_mem p.1 p.2 s c h' with h'' | ⟨h1, _⟩
      · exact Or.inr ⟨p, List.mem_cons_self p m, h''⟩
      · exact Or.inl h1
    · exact Or.inr ⟨q, List.mem_cons_of_mem _ hq, hc⟩

theorem applyCharMap_eq_self (m : List (Char × List Char)) (s : List Char)
    (h : ∀ p ∈ m, p.1 ∉ s) : applyCharMap m s = s := by
  induction m with
  | nil => rfl
  | cons p m ih =>
    have h1 : pyReplaceChar p.1 p.2 s = s :=
      pyReplaceChar_eq_self _ _ _ (h p (List.mem_cons_self p m))
    show applyCharMap m (pyReplaceChar p.1 p.2 s) = s
    rw [h1]
    exact ih (fun q hq => h q (List.mem_cons_of_mem _ hq))

theorem not_mem_applyCharMap (m : List (Char × List Char)) (s : List Char)
    (k : Char) (hk : k ∉ s) (hv : ∀ p ∈ m, k ∉ p.2) : k ∉ applyCharMap m s := by
  intro h
  rcases applyCharMap_mem m s k h with h' | ⟨p, hp, hc⟩
  · exact hk h'
  · exact hv p hp hc

theorem key_not_mem_applyCharMap (m : List (Char × List Char)) (s : List Char)
    (k : Char) (hk : k ∈ m.map Prod.fst) (hv : ∀ p ∈ m, k ∉ p.2) :
    k ∉ applyCharMap m s := by
  induction m generalizing s with
  | nil => simp at hk
  | cons p m ih =>
    rw [List.map_cons, List.mem_cons] at hk
    rcases hk with hk | hk
    · subst hk
      have h1 : p.1 ∉ pyReplaceChar p.1 p.2 s :=
        pyReplaceChar_not_mem _ _ _ (hv p (List.mem_cons_self p m))
      exact not_mem_applyCharMap m _ p.1 h1 (fun q hq => hv q (List.mem_cons_of_mem _ hq))
    · exact ih (pyReplaceChar p.1 p.2 s) hk (fun q hq => hv q (List.mem_cons_of_mem _ hq))

theorem pySplitAux_mem (t : List Char) :
    ∀ (acc w : List Char), w ∈ pySplitAux t acc → ∀ c ∈ w, c ∈ t ∨ c ∈ acc := by
  induction t with
  | nil =>
    intro acc w hw c hc
    by_cases ha : acc = []
    · simp [pySplitAux, ha] at hw
    · simp only [pySplitAux, if_neg ha, List.mem_singleton] at hw
      subst hw
      exact Or.inr (List.mem_reverse.mp hc)
  | cons x xs ih =>
    intro acc w hw c hc
    by_cases hx : x.isWhitespace = true
    · by_cases ha : acc = []
      · simp only [pySplitAux, hx, if_pos ha, if_true] at hw
        rcases ih [] w hw c hc with h | h
        · exact Or.inl (List.mem_cons_of_mem _ h)
        · simp at h
      · simp only [pySplitAux, hx, if_neg ha, if_true, List.mem_cons] at hw
        rcases hw with hw | hw
        · subst hw
          exact Or.inr (List.mem_reverse.mp hc)
        · rcases ih [] w hw c hc with h | h
          · exact Or.inl (List.mem_cons_of_mem _ h)
          · simp at h
    · simp only [pySplitAux, hx, if_false] at hw
      rcases ih (x :: acc) w hw c hc with h | h
      · exact Or.inl (List.mem_cons_of_mem _ h)
      · rw [List.mem_cons] at h
        rcases h with h | h
        · exact Or.inl (by simp [h])
        · exact Or.inr h

theorem pySplitAux_tokens (t : List Char) :
    ∀ acc : List Char, (∀ c ∈ acc, c.isWhitespace = false) →
    ∀ w ∈ pySplitAux t acc, w ≠ [] ∧ ∀ c ∈ w, c.isWhitespace = false := by
  induction t with
  | nil =>
    intro acc hacc w hw
    by_cases ha : acc = []
    · simp [pySplitAux, ha] at hw
    · simp only [pySplitAux, if_neg ha, List.mem_singleton] at hw
      subst hw
      refine ⟨by simpa using ha, ?_⟩
      intro c hc
      exact hacc c (List.mem_reverse.mp hc)
  | cons x xs ih =>
    intro acc hacc w hw
    by_cases hx : x.isWhitespace = true
    · by_cases ha : acc = []
      · simp only [pySplitAux, hx, if_pos ha, if_true] at hw
        exact ih [] (by simp) w hw
      · simp only [pySplitAux, hx, if_neg ha, if_true, List.mem_cons] at hw
        rcases hw with hw | hw
        · subst hw
          refine ⟨by simpa using ha, ?_⟩
          intro c hc
          exact hacc c (List.mem_reverse.mp hc)
        · exact ih [] (by simp) w hw
    · simp only [pySplitAux, hx, if_false] at hw
      refine ih (x :: acc) ?_ w hw
      intro c hc
      rw [List.mem_cons] at hc
      rcases hc with hc | hc
      · subst hc
        simpa using hx
      · exact hacc c hc

theorem pySplitAux_word (w : List Char) (hw : ∀ c ∈ w, c.isWhitespace = false) :
    ∀ (t acc : List Char), pySplitAux (w ++ t) acc = pySplitAux t (w.reverse ++ acc) := by
  induction w with
  | nil => intro t acc; simp
  | cons x xs ih =>
    intro t acc
    have hx : x.isWhitespace = false := hw x (List.mem_cons_self x xs)
    have ih' := ih (fun c hc => hw c (List.mem_cons_of_mem _ hc)) t (x :: acc)
    rw [List.cons_append]
    simp only [pySplitAux, List.append_eq, hx]
    rw [if_neg Bool.false_ne_true, ih']
    congr 1
    simp

theorem pyJoinSpace_mem (ws : List (List Char)) (c : Char)
    (h : c ∈ pyJoinSpace ws) : c = ' ' ∨ ∃ w ∈ ws, c ∈ w := by
  induction ws with
  | nil => simp [pyJoinSpace] at h
  | cons w ws ih =>
    cases ws with
    | nil => exact Or.inr ⟨w, List.mem_cons_self w [], h⟩
    | cons w' ws' =>
      simp only [pyJoinSpace, List.mem_append, List.mem_cons] at h
      rcases h with h | h | h
      · exact Or.inr ⟨w, List.mem_cons_self w _, h⟩
      · exact Or.inl h
      · rcases ih h with h' | ⟨u, hu, hc⟩
        · exact Or.inl h'
        · exact Or.inr ⟨u, List.mem_cons_of_mem _ hu, hc⟩

theorem pySplit_pyJoinSpace (ws : List (List Char))
    (h1 : ∀ w ∈ ws, w ≠ []) (h2 : ∀ w ∈ ws, ∀ c ∈ w, c.isWhitespace = false) :
    pySplit (pyJoinSpace ws) = ws := by
  induction ws with
  | nil => rfl
  | cons w ws ih =>
    have hw2 := h2 w (List.mem_cons_self w ws)
    have hw1 := h1 w (List.mem_cons_self w ws)
    cases ws with
    | nil =>
      show pySplitAux w [] = [w]
      have : pySplitAux (w ++ []) [] = pySplitAux [] (w.reverse ++ []) :=
        pySplitAux_word w hw2 [] []
      rw [List.append_nil] at this
      rw [this]
      have hrev : ¬ (w.reverse ++ [] : List Char) = [] := by simpa using hw1
      simp only [pySplitAux, if_neg hrev]
      simp
    | cons w' ws' =>
      show pySplitAux (w ++ ' ' :: pyJoinSpace (w' :: ws')) [] = w :: w' :: ws'
      rw [pySplitAux_word w hw2 (' ' :: pyJoinSpace (w' :: ws')) []]
      have hsp : (' ' : Char).isWhitespace = true := by decide
      have hrev : ¬ (w.reverse ++ [] : List Char) = [] := by simpa using hw1
      simp only [pySplitAux, hsp, if_neg hrev, if_true]
      have ih' : pySplitAux (pyJoinSpace (w' :: ws')) [] = w' :: ws' :=
        ih (fun u hu => h1 u (List.mem_cons_of_mem _ hu))
          (fun u hu => h2 u (List.mem_cons_of_mem _ hu))
      rw [ih']
      congr 1
      simp

theorem greek_map_keys_not_in_values :
    ∀ k ∈ GREEK_MAP.map Prod.fst, ∀ q ∈ GREEK_MAP, k ∉ q.2 := by decide

theorem greek_map_values_not_greek :
    ∀ q ∈ GREEK_MAP, ∀ c ∈ q.2, isGreekCodepoint c = false := by decide

theorem greek_map_keys_not_space : ∀ p ∈ GREEK_MAP, ¬ p.1 = ' ' := by decide

theorem normalize_name_no_key (s : List Char) (p : Char × List Char)
    (hp : p ∈ GREEK_MAP) : p.1 ∉ normalize_name s := by
  intro hmem
  rcases pyJoinSpace_mem _ p.1 hmem with h | ⟨w, hw, hc⟩
  · exact greek_map_keys_not_space p hp h
  · have hct : p.1 ∈ applyCharMap GREEK_MAP s := by
      rcases pySplitAux_mem _ [] w hw p.1 hc with h | h
      · exact h
      · simp at h
    have hkey : p.1 ∈ GREEK_MAP.map Prod.fst :=
      List.mem_map_of_mem Prod.fst hp
    exact key_not_mem_applyCharMap GREEK_MAP s p.1 hkey
      (greek_map_keys_not_in_values p.1 hkey) hct

/-! ### Claim C6 -/

/-- C6, as stated, is false: `GREEK_MAP` has entries for exactly 24
lowercase Greek letters and omits the final sigma 'ς' (U+03C2), which is
a Greek lowercase letter.  The input `"ς"` contains a Greek lowercase
letter, yet `normalize_name` leaves it unchanged, so the output contains
a Greek codepoint. -/
theorem c6_counterexample :
    isGreekLower 'ς' = true ∧
    normalize_name ['ς'] = ['ς'] ∧
    isGreekCodepoint 'ς' = true :=
  ⟨by decide, rfl, by decide⟩

/-- C6 amended: for every input whose Greek codepoints are all keys of
`GREEK_MAP` (i.e. among the 24 mapped lowercase letters), the output of
`normalize_name` contains no Greek codepoints.  Unmapped Greek
codepoints — final sigma 'ς', uppercase Greek, accented forms — pass
through unchanged. -/
theorem c6_amended (s : List Char)
    (h : ∀ c ∈ s, isGreekCodepoint c = true → c ∈ GREEK_MAP.map Prod.fst) :
    ∀ c ∈ normalize_name s, isGreekCodepoint c = false := by
  intro c hc
  by_contra hgne
  have hg : isGreekCodepoint c = true := by
    cases hb : isGreekCodepoint c
    · exact absurd hb hgne
    · rfl
  rcases pyJoinSpace_mem _ c hc with h' | ⟨w, hw, hcw⟩
  · subst h'
    exact absurd hg (by decide)
  · have hct : c ∈ applyCharMap GREEK_MAP s := by
      rcases pySplitAux_mem _ [] w hw c hcw with h' | h'
      · exact h'
      · simp at h'
    rcases applyCharMap_mem _ _ _ hct with hs | ⟨p, hp, hv⟩
    · have hkey := h c hs hg
      exact key_not_mem_applyCharMap GREEK_MAP s c hkey
        (greek_map_keys_not_in_values c hkey) hct
    · have hfalse := greek_map_values_not_greek p hp c hv
      rw [hfalse] at hg
      exact Bool.noConfusion hg

/-- Witness for C6 amended on a concrete input with mapped Greek letters:
`"β Ori"` normalizes to `"Beta Ori"`, whose character `'B'` is not Greek. -/
theorem c6_witness :
    isGreekLower 'β' = true ∧ isGreekCodepoint 'B' = false :=
  ⟨by decide, c6_amended ("β Ori".toList) (by decide) 'B' (by decide)⟩

/-! ### Claim C7 -/

/-- C7 confirmed: `normalize_name` is idempotent.  The first pass removes
every `GREEK_MAP` key (the replacement words contain no mapped Greek
letters, so none are reintroduced) and leaves single spaces between
nonempty whitespace-free tokens, so the second pass's replacements and
whitespace collapse both act as the identity. -/
theorem c7_theorem (s : List Char) :
    normalize_name (normalize_name s) = normalize_name s := by
  have hkeys : ∀ p ∈ GREEK_MAP, p.1 ∉ normalize_name s :=
    fun p hp => normalize_name_no_key s p hp
  have h2nd : applyCharMap GREEK_MAP (normalize_name s) = normalize_name s :=
    applyCharMap_eq_self _ _ hkeys
  have htok := pySplitAux_tokens (applyCharMap GREEK_MAP s) [] (by simp)
  have h1 : ∀ w ∈ pySplit (applyCharMap GREEK_MAP s), w ≠ [] :=
    fun w hw => (htok w hw).1
  have h2 : ∀ w ∈ pySplit (applyCharMap GREEK_MAP s), ∀ c ∈ w, c.isWhitespace = false :=
    fun w hw => (htok w hw).2
  calc normalize_name (normalize_name s)
      = pyJoinSpace (pySplit (applyCharMap GREEK_MAP (normalize_name s))) := rfl
    _ = pyJoinSpace (pySplit (normalize_name s)) := by rw [h2nd]
    _ = pyJoinSpace (pySplit (pyJoinSpace (pySplit (applyCharMap GREEK_MAP s)))) := rfl
    _ = pyJoinSpace (pySplit (applyCharMap GREEK_MAP s)) := by
        rw [pySplit_pyJoinSpace _ h1 h2]
    _ = normalize_name s := rfl

/-! ### Claim C9 -/

/-- C9 confirmed: for a resolved edge with both catalog distances known,
`annotate_image` emits exactly
`sqrt(d1^2 + d2^2 - 2*d1*d2*cos θ)` with `θ` the angular separation
converted to radians; in particular `d1 = d2 = 100` with `θ = 0°` gives
`0`, and `d1 = d2 = 100` with `θ = 180°` gives `200`. -/
theorem c9_theorem :
    (∀ x1 y1 x2 y2 degPerPixel d1 d2 : ℝ,
      edge_dist_ly x1 y1 x2 y2 degPerPixel d1 d2
        = Real.sqrt (d1 ^ 2 + d2 ^ 2 -
            2 * d1 * d2 * Real.cos (np_radians (edge_dist_deg x1 y1 x2 y2 degPerPixel)))) ∧
    law_of_cosines_ly 100 100 0 = 0 ∧
    law_of_cosines_ly 100 100 180 = 200 := by
  refine ⟨fun _ _ _ _ _ _ _ => rfl, ?_, ?_⟩
  · unfold law_of_cosines_ly np_radians
    norm_num [Real.cos_zero]
  · unfold law_of_cosines_ly np_radians
    have hpi : (180 : ℝ) * Real.pi / 180 = Real.pi := by ring
    rw [hpi, Real.cos_pi]
    have h40000 : (100 : ℝ) ^ 2 + 100 ^ 2 - 2 * 100 * 100 * (-1) = 200 ^ 2 := by norm_num
    rw [h40000]
    exact Real.sqrt_sq (by norm_num)

/-! ### Claim C10 -/

/-- C10, as stated, is false: matching is case-sensitive unanchored
substring containment, and normalization produces the capitalized word
`"Theta"`, which contains the lowercase `"eta"` but not the pattern
`"Eta Ori"` (capital E).  An annotation whose only alias `"θ Ori"`
normalizes to `"Theta Ori"` is therefore NOT matched by the catalog
pattern `"Eta Ori"` — the spurious cross-star match the spec warns about
does not occur on this instance. -/
theorem c10_counterexample :
    normalize_name ("θ Ori".toList) = "Theta Ori".toList ∧
    pyInStr ("Eta Ori".toList) ("Theta Ori".toList) = false ∧
    find_star_in_annotations ("Eta Ori".toList) [⟨["θ Ori".toList]⟩] = Option.none :=
  ⟨rfl, rfl, rfl⟩

/-- C10 amended: `find_star_in_annotations` returns a record only when
some alias of that record normalizes to a name containing the pattern
itself as a case-sensitive substring; since `"Theta Ori"` (the
normalization of `"θ Ori"`) does not contain `"Eta Ori"`, a record can
be matched by `"Eta Ori"` only via an alias that itself contains
`"Eta Ori"`, never through `"Theta Ori"` content alone. -/
theorem c10_amended :
    (∀ (pat : List Char) (anns : List AnnStar) (a : AnnStar),
      find_star_in_annotations pat anns = Option.some a →
      ∃ n ∈ a.names, pyInStr pat (normalize_name n) = true) ∧
    pyInStr ("Eta Ori".toList) (normalize_name ("θ Ori".toList)) = false := by
  constructor
  · intro pat anns a h
    have hp := List.find?_some h
    simpa [List.any_eq_true] using hp
  · rfl

/-- Witness for C10 amended: the pattern `"Eta Ori"` does match a record
aliased `"η Ori"`, whose normalization contains the pattern itself. -/
theorem c10_witness :
    ∃ n ∈ (AnnStar.mk ["η Ori".toList]).names,
      pyInStr ("Eta Ori".toList) (normalize_name n) = true :=
  c10_amended.1 ("Eta Ori".toList) [⟨["η Ori".toList]⟩] ⟨["η Ori".toList]⟩ rfl
